import Mathlib

/-!
# Verification of the RMV backend (main.go)

A shallow embedding of the Go program `main.go` (latest revision: TTL cache,
CORS middleware, read-through `fetchDepartures`) together with proofs of the
specified properties.

Conventions of the embedding:
* Go `time.Time` / `time.Duration` are modelled as `Int` nanoseconds
  (Go durations are nanosecond counts); `time.Now()` is passed explicitly as
  a `now : Int` parameter to every operation that reads the clock.
* Go `any` (the opaque decoded JSON payload) is modelled by `GoAny`, with a
  distinguished `GoAny.nil` for the Go `nil` interface value and an opaque
  constructor for decoded JSON trees.
* The Go map `map[string]cacheEntry` is modelled as a function
  `String → Option cacheEntry` (a Go map holds at most one entry per key).
-/

/-- Go `time.Duration` constant: one second in nanoseconds. -/
def goSecond : Int := 1000000000

/-- Go `time.Duration` constant: one minute in nanoseconds. -/
def goMinute : Int := 60 * goSecond

/-- The fixed cache TTL used by `fetchDepartures`: `5*time.Minute`. -/
def cacheTTL : Int := 5 * goMinute

/-- The fixed upstream client timeout: `10*time.Second` (a timeout surfaces
as a transport error from `client.Do`, see `UpstreamResult.transportError`). -/
def clientTimeout : Int := 10 * goSecond

/-- The Go `any` value held by the cache and returned to callers: either the
Go `nil` interface value or an opaque decoded JSON tree (indexed abstractly,
since the program never inspects its shape). -/
inductive GoAny where
  | nil : GoAny
  | json : Nat → GoAny
deriving DecidableEq, Repr

/-- Embeds Go `type cacheEntry struct { data any; expiresAt time.Time }`. -/
structure cacheEntry where
  data : GoAny
  expiresAt : Int
deriving DecidableEq, Repr

/-- Embeds Go `type Cache struct { mu sync.RWMutex; entries map[string]cacheEntry }`.
The mutex has no sequential content; the concurrent lock protocol is modelled
separately below (`CacheStep`, `CacheReach`). -/
structure Cache where
  entries : String → Option cacheEntry

/-- Embeds Go `NewCache()`: an empty entries map. -/
def NewCache : Cache := ⟨fun _ => none⟩

/-- Embeds Go `(c *Cache) Get(key string) (any, bool)`:
```
entry, ok := c.entries[key]
if !ok || time.Now().After(entry.expiresAt) { return nil, false }
return entry.data, true
```
`time.Now()` is the explicit `now`; `t.After(u)` is `t > u`. -/
def Cache.Get (c : Cache) (now : Int) (key : String) : GoAny × Bool :=
  match c.entries key with
  | none => (GoAny.nil, false)
  | some entry =>
      if now > entry.expiresAt then (GoAny.nil, false)
      else (entry.data, true)

/-- Embeds Go `(c *Cache) Set(key string, data any, ttl time.Duration)`:
`c.entries[key] = cacheEntry{data: data, expiresAt: time.Now().Add(ttl)}`. -/
def Cache.Set (c : Cache) (key : String) (data : GoAny) (ttl : Int) (now : Int) : Cache :=
  ⟨fun k => if k = key then some ⟨data, now + ttl⟩ else c.entries k⟩

/-- A concrete cache used in counterexamples: one entry at key `"stop"`
whose `expiresAt` is the instant `100`. -/
def boundaryCache : Cache :=
  ⟨fun k => if k = "stop" then some ⟨GoAny.json 7, 100⟩ else none⟩

/-- C1 counterexample. The claim says `Get` returns `found = false` whenever
`now ≥ expiresAt`. The code uses `time.Now().After(expiresAt)`, which is
strict, so at `now = expiresAt` exactly the entry is still returned with
`found = true`: `boundaryCache` holds an entry for `"stop"` expiring at
instant `100`, and `Get` at `now = 100` returns it. -/
theorem cache_get_at_expiry_instant_counterexample :
    ¬ (∀ (c : Cache) (now : Int) (key : String) (e : cacheEntry),
        c.entries key = some e → e.expiresAt ≤ now →
        (c.Get now key).2 = false) := by
  intro h
  have h100 : boundaryCache.entries "stop" = some ⟨GoAny.json 7, 100⟩ := by
    simp [boundaryCache]
  have := h boundaryCache 100 "stop" ⟨GoAny.json 7, 100⟩ h100 (by simp)
  simp [Cache.Get, h100] at this

/-- C1 (amended): `Cache.Get(key)` returns `(nil, false)` whenever no entry
exists for `key`, or the stored entry's `expiresAt` is strictly before the
current time (`now > expiresAt`); at `now` exactly equal to `expiresAt` the
entry is still returned. -/
theorem cache_get_expiry_correctness (c : Cache) (now : Int) (key : String)
    (h : c.entries key = none ∨
      ∃ e, c.entries key = some e ∧ e.expiresAt < now) :
    c.Get now key = (GoAny.nil, false) := by
  rcases h with h | ⟨e, he, hlt⟩
  · simp [Cache.Get, h]
  · simp [Cache.Get, he, hlt]

/-- Witness for `cache_get_expiry_correctness`: the `boundaryCache` entry at
key `"stop"` expires at instant `100`, and `Get` at `now = 101` misses. -/
theorem cache_get_expiry_correctness_witness :
    boundaryCache.Get 101 "stop" = (GoAny.nil, false) :=
  cache_get_expiry_correctness boundaryCache 101 "stop"
    (Or.inr ⟨⟨GoAny.json 7, 100⟩, by simp [boundaryCache], by norm_num⟩)

/-- C4: freshness within TTL. A `Set(key, v, ttl)` performed at instant
`now₀` followed by a `Get(key)` at instant `now₁` before `ttl` has elapsed
(`now₁ < now₀ + ttl`, with `ttl > 0`) returns `(v, true)`. -/
theorem cache_set_get_within_ttl (c : Cache) (key : String) (v : GoAny)
    (ttl now₀ now₁ : Int) (_httl : 0 < ttl) (hfresh : now₁ < now₀ + ttl) :
    (c.Set key v ttl now₀).Get now₁ key = (v, true) := by
  have hle : ¬ now₁ > now₀ + ttl := by omega
  simp [Cache.Set, Cache.Get, hle]

/-- Witness for `cache_set_get_within_ttl`: set at instant `0` with TTL `300`,
get at instant `299`. -/
theorem cache_set_get_within_ttl_witness :
    (NewCache.Set "stop" (GoAny.json 3) 300 0).Get 299 "stop" =
      (GoAny.json 3, true) :=
  cache_set_get_within_ttl NewCache "stop" (GoAny.json 3) 300 0 299
    (by norm_num) (by norm_num)

/-- C5: overwrite semantics (last write wins). Two sequential `Set` calls on
the same key leave the cache in exactly the state produced by the second
`Set` alone: the first entry's value and expiry are fully superseded, and —
the entries being a map — at most one entry per key ever exists. -/
theorem cache_set_overwrite (c : Cache) (key : String)
    (v₁ v₂ : GoAny) (ttl₁ ttl₂ now₁ now₂ : Int) :
    (c.Set key v₁ ttl₁ now₁).Set key v₂ ttl₂ now₂ = c.Set key v₂ ttl₂ now₂ := by
  show Cache.mk _ = Cache.mk _
  refine congrArg Cache.mk (funext fun k => ?_)
  by_cases hk : k = key <;> simp [Cache.Set, hk]

/-- C9: whenever `Cache.Get` reports `found = false` — key absent or entry
expired — the returned value is exactly the Go `nil`, never the stale stored
value. -/
theorem cache_get_miss_returns_nil (c : Cache) (now : Int) (key : String)
    (h : (c.Get now key).2 = false) :
    (c.Get now key).1 = GoAny.nil := by
  unfold Cache.Get at *
  cases he : c.entries key with
  | none => simp [he]
  | some e =>
    simp only [he] at h ⊢
    by_cases hexp : now > e.expiresAt
    · simp [hexp]
    · simp [hexp] at h

/-- Witness for `cache_get_miss_returns_nil`: a `Get` on the empty cache
reports `found = false` and returns `nil`. -/
theorem cache_get_miss_returns_nil_witness :
    (NewCache.Get 0 "stop").1 = GoAny.nil :=
  cache_get_miss_returns_nil NewCache 0 "stop" (by simp [NewCache, Cache.Get])

/-!
## Upstream client and read-through orchestrator (`fetchDepartures`)

`fetchDepartures(ctx, cache, apiKey, stopID)` in Go:
1. `if data, ok := cache.Get(cacheKey); ok { return data, nil }`
2. builds the request URL `https://www.rmv.de/hapi/departureBoard` with
   query values set in order: `accessId`, `id`, `format=json`, `duration=60`
   (`url.Parse` of this constant and `http.NewRequestWithContext` with a
   valid method and URL cannot fail; those dead error branches are elided);
3. `client.Do(req)` — a transport failure or timeout returns an error;
4. `resp.StatusCode != http.StatusOK` returns
   `fmt.Errorf("API returned status %d", ...)`;
5. a JSON decode failure returns the decode error;
6. `cache.Set(cacheKey, data, 5*time.Minute)` and return the data.

The network is modelled as an oracle `up : HTTPRequest → UpstreamResult`,
and the result records the list of upstream requests actually issued, so
"exactly one upstream call" is the length of that list.
-/

/-- Go `url.Values` (`map[string][]string`), as a function from key to the
list of values. -/
def Values : Type := String → List String

/-- The empty `url.Values` (what `u.Query()` yields for a URL with no query). -/
def emptyValues : Values := fun _ => []

/-- Go `(v url.Values) Set(key, value string)`: replaces the values of `key`
by the single `value`. -/
def Values.set (q : Values) (key value : String) : Values :=
  fun k => if k = key then [value] else q k

/-- The outbound HTTP request shape: method, URL (without query), and query
values. -/
structure HTTPRequest where
  method : String
  urlStr : String
  query : Values

/-- The query values built by `fetchDepartures`:
`q.Set("accessId", apiKey); q.Set("id", stopID); q.Set("format", "json");
q.Set("duration", "60")` starting from the empty query. -/
def departureBoardQuery (apiKey stopID : String) : Values :=
  (((emptyValues.set "accessId" apiKey).set "id" stopID).set
    "format" "json").set "duration" "60"

/-- The single upstream request `fetchDepartures` can issue: an HTTP GET to
the fixed departure-board endpoint with the four query parameters. -/
def departureBoardRequest (apiKey stopID : String) : HTTPRequest :=
  ⟨"GET", "https://www.rmv.de/hapi/departureBoard",
    departureBoardQuery apiKey stopID⟩

/-- The body of an upstream HTTP response, as seen through
`json.NewDecoder(resp.Body).Decode`: it either decodes to a value or is
malformed. -/
inductive Body where
  | decodesTo (v : GoAny) : Body
  | malformed (msg : String) : Body

/-- Outcome of one upstream call (`client.Do`): a transport error (network
failure or the 10-second client timeout), or a response with a status code
and a body. -/
inductive UpstreamResult where
  | transportError (msg : String) : UpstreamResult
  | response (status : Nat) (body : Body) : UpstreamResult

/-- The errors `fetchDepartures` can return: the transport error from
`client.Do`, the formatted non-OK-status error, or the JSON decode error. -/
inductive FetchError where
  | transport (msg : String) : FetchError
  | apiStatus (status : Nat) : FetchError
  | decode (msg : String) : FetchError

/-- The Go error message carried by each `FetchError`; the non-OK-status
case is `fmt.Errorf("API returned status %d", resp.StatusCode)`. -/
def FetchError.message : FetchError → String
  | .transport msg => msg
  | .apiStatus status => "API returned status " ++ toString status
  | .decode msg => msg

/-- Result of one `fetchDepartures` call: the returned `(any, error)` pair,
the cache as left by the call, and the list of upstream requests issued. -/
structure FetchResult where
  result : Except FetchError GoAny
  cache : Cache
  requests : List HTTPRequest

/-- Embeds Go `fetchDepartures(ctx, cache, apiKey, stopID string) (any, error)`
against the upstream oracle `up`; `now` is the clock instant of the call. -/
def fetchDepartures (up : HTTPRequest → UpstreamResult) (cache : Cache)
    (now : Int) (apiKey stopID : String) : FetchResult :=
  let cacheKey := stopID
  match cache.Get now cacheKey with
  | (data, true) => ⟨.ok data, cache, []⟩
  | (_, false) =>
    let req := departureBoardRequest apiKey stopID
    match up req with
    | .transportError msg => ⟨.error (.transport msg), cache, [req]⟩
    | .response status body =>
      if status ≠ 200 then ⟨.error (.apiStatus status), cache, [req]⟩
      else
        match body with
        | .malformed msg => ⟨.error (.decode msg), cache, [req]⟩
        | .decodesTo data =>
            ⟨.ok data, cache.Set cacheKey data cacheTTL now, [req]⟩

/-- Helper: on a cache hit, `fetchDepartures` returns the cached value,
leaves the cache untouched and issues no upstream request. -/
theorem fetchDepartures_hit (up : HTTPRequest → UpstreamResult) (c : Cache)
    (now : Int) (apiKey stopID : String) (h : (c.Get now stopID).2 = true) :
    fetchDepartures up c now apiKey stopID =
      ⟨.ok (c.Get now stopID).1, c, []⟩ := by
  rcases hp : c.Get now stopID with ⟨d, b⟩
  rw [hp] at h
  simp only at h
  subst h
  simp [fetchDepartures, hp]

/-- C2: read-through contract. (a) If `Cache.Get(stopID)` reports a hit, the
cached value is returned, the cache is untouched and no upstream request is
issued. (b) On a miss from an empty cache with a successful upstream
(status 200, well-formed body `v`), exactly one upstream request is issued,
`v` is returned, `v` is stored with the fixed 5-minute TTL, and a following
call for the same `stopID` at any instant `now₂` within the TTL is a cache
hit returning `v` with zero upstream requests. -/
theorem fetchDepartures_read_through (up : HTTPRequest → UpstreamResult)
    (c : Cache) (now : Int) (apiKey stopID : String) :
    ((c.Get now stopID).2 = true →
      fetchDepartures up c now apiKey stopID =
        ⟨.ok (c.Get now stopID).1, c, []⟩) ∧
    (∀ v, c = NewCache →
      up (departureBoardRequest apiKey stopID) = .response 200 (.decodesTo v) →
      (fetchDepartures up c now apiKey stopID).result = .ok v ∧
      (fetchDepartures up c now apiKey stopID).requests.length = 1 ∧
      (fetchDepartures up c now apiKey stopID).cache.entries stopID =
        some ⟨v, now + cacheTTL⟩ ∧
      ∀ now₂, now₂ ≤ now + cacheTTL →
        (fetchDepartures up (fetchDepartures up c now apiKey stopID).cache
            now₂ apiKey stopID).result = .ok v ∧
        (fetchDepartures up (fetchDepartures up c now apiKey stopID).cache
            now₂ apiKey stopID).requests.length = 0) := by
  refine ⟨fetchDepartures_hit up c now apiKey stopID, ?_⟩
  intro v hc hup
  subst hc
  have hmiss : NewCache.Get now stopID = (GoAny.nil, false) := rfl
  have hres : fetchDepartures up NewCache now apiKey stopID =
      ⟨.ok v, NewCache.Set stopID v cacheTTL now,
        [departureBoardRequest apiKey stopID]⟩ := by
    simp [fetchDepartures, hmiss, hup]
  refine ⟨by rw [hres], by rw [hres]; rfl, by rw [hres]; simp [Cache.Set], ?_⟩
  intro now₂ hnow₂
  rw [hres]
  have hget₂ : (NewCache.Set stopID v cacheTTL now).Get now₂ stopID =
      (v, true) := by
    have hle : ¬ now₂ > now + cacheTTL := by omega
    simp [Cache.Set, Cache.Get, hle]
  have := fetchDepartures_hit up (NewCache.Set stopID v cacheTTL now)
    now₂ apiKey stopID (by rw [hget₂])
  rw [this, hget₂]
  exact ⟨rfl, rfl⟩

/-- Witness for `fetchDepartures_read_through`: a concrete upstream oracle
answering 200 with payload `json 5`; both conjuncts instantiated. -/
theorem fetchDepartures_read_through_witness :
    (fetchDepartures (fun _ => .response 200 (.decodesTo (GoAny.json 5)))
        NewCache 0 "key" "900123456").result = .ok (GoAny.json 5) ∧
    (fetchDepartures (fun _ => .response 200 (.decodesTo (GoAny.json 5)))
        NewCache 0 "key" "900123456").requests.length = 1 ∧
    (fetchDepartures (fun _ => .response 200 (.decodesTo (GoAny.json 5)))
        (fetchDepartures (fun _ => .response 200 (.decodesTo (GoAny.json 5)))
          NewCache 0 "key" "900123456").cache 1 "key" "900123456").requests.length
      = 0 := by
  have h := (fetchDepartures_read_through
    (fun _ => .response 200 (.decodesTo (GoAny.json 5)))
    NewCache 0 "key" "900123456").2 (GoAny.json 5) rfl rfl
  exact ⟨h.1, h.2.1, (h.2.2.2 1 (by norm_num [cacheTTL, goMinute, goSecond])).2⟩

/-- C3: upstream failure propagation with cache atomicity. On a cache miss,
every failing upstream outcome — transport error or timeout, non-success
HTTP status, or decode error — makes `fetchDepartures` return the
corresponding error with the cache left exactly as it was and with exactly
one upstream request issued (no retry); a non-success status yields the
error carrying the observed status code, whose message is
`"API returned status %d"`. -/
theorem fetchDepartures_failure_propagation (up : HTTPRequest → UpstreamResult)
    (c : Cache) (now : Int) (apiKey stopID : String)
    (hmiss : (c.Get now stopID).2 = false) :
    (∀ msg, up (departureBoardRequest apiKey stopID) = .transportError msg →
      fetchDepartures up c now apiKey stopID =
        ⟨.error (.transport msg), c, [departureBoardRequest apiKey stopID]⟩) ∧
    (∀ status body,
      up (departureBoardRequest apiKey stopID) = .response status body →
      ¬ (200 ≤ status ∧ status ≤ 299) →
      fetchDepartures up c now apiKey stopID =
        ⟨.error (.apiStatus status), c, [departureBoardRequest apiKey stopID]⟩ ∧
      (FetchError.apiStatus status).message =
        "API returned status " ++ toString status) ∧
    (∀ msg,
      up (departureBoardRequest apiKey stopID) = .response 200 (.malformed msg) →
      fetchDepartures up c now apiKey stopID =
        ⟨.error (.decode msg), c, [departureBoardRequest apiKey stopID]⟩) := by
  rcases hp : c.Get now stopID with ⟨d, b⟩
  rw [hp] at hmiss
  simp only at hmiss
  subst hmiss
  refine ⟨?_, ?_, ?_⟩
  · intro msg hup
    simp [fetchDepartures, hp, hup]
  · intro status body hup hns
    have h200 : status ≠ 200 := by omega
    exact ⟨by simp [fetchDepartures, hp, hup, h200], rfl⟩
  · intro msg hup
    simp [fetchDepartures, hp, hup]

/-- Witness for `fetchDepartures_failure_propagation`: an upstream answering
HTTP 503 on the empty cache; the error carries status 503 and the cache
stays empty. -/
theorem fetchDepartures_failure_propagation_witness :
    fetchDepartures (fun _ => .response 503 (.decodesTo (GoAny.json 1)))
        NewCache 0 "key" "900123456" =
      ⟨.error (.apiStatus 503), NewCache,
        [departureBoardRequest "key" "900123456"]⟩ :=
  (((fetchDepartures_failure_propagation
      (fun _ => .response 503 (.decodesTo (GoAny.json 1)))
      NewCache 0 "key" "900123456" rfl).2.1
    503 (.decodesTo (GoAny.json 1)) rfl (by omega)).1)

/-- Helper: every upstream request `fetchDepartures` issues is the single
fixed departure-board request for its `apiKey` and `stopID`. -/
theorem fetchDepartures_requests_sub (up : HTTPRequest → UpstreamResult)
    (c : Cache) (now : Int) (apiKey stopID : String) (req : HTTPRequest)
    (hreq : req ∈ (fetchDepartures up c now apiKey stopID).requests) :
    req = departureBoardRequest apiKey stopID := by
  rcases hp : c.Get now stopID with ⟨d, b⟩
  rcases b with _ | _
  · rcases hup : up (departureBoardRequest apiKey stopID) with msg | ⟨status, body⟩
    · simp [fetchDepartures, hp, hup] at hreq
      exact hreq
    · by_cases h200 : status = 200
      · subst h200
        rcases body with v | msg
        · simp [fetchDepartures, hp, hup] at hreq
          exact hreq
        · simp [fetchDepartures, hp, hup] at hreq
          exact hreq
      · simp [fetchDepartures, hp, hup, h200] at hreq
        exact hreq
  · simp [fetchDepartures, hp] at hreq

/-- C8: outbound request shape. Every upstream request issued by
`fetchDepartures` is an HTTP GET to the fixed departure-board endpoint whose
query parameters are exactly `accessId` (the credential), `id` (the stop
identifier), `format=json`, and `duration=60` (minutes of lookahead) — no
other query key carries a value. -/
theorem fetchDepartures_request_shape (up : HTTPRequest → UpstreamResult)
    (c : Cache) (now : Int) (apiKey stopID : String) (req : HTTPRequest)
    (hreq : req ∈ (fetchDepartures up c now apiKey stopID).requests) :
    req.method = "GET" ∧
    req.urlStr = "https://www.rmv.de/hapi/departureBoard" ∧
    req.query "accessId" = [apiKey] ∧
    req.query "id" = [stopID] ∧
    req.query "format" = ["json"] ∧
    req.query "duration" = ["60"] ∧
    (∀ k, k ≠ "accessId" → k ≠ "id" → k ≠ "format" → k ≠ "duration" →
      req.query k = []) := by
  have h := fetchDepartures_requests_sub up c now apiKey stopID req hreq
  subst h
  refine ⟨rfl, rfl, ?_, ?_, ?_, ?_, ?_⟩
  · simp [departureBoardRequest, departureBoardQuery, Values.set]
  · simp [departureBoardRequest, departureBoardQuery, Values.set]
  · simp [departureBoardRequest, departureBoardQuery, Values.set]
  · simp [departureBoardRequest, departureBoardQuery, Values.set]
  · intro k h₁ h₂ h₃ h₄
    simp [departureBoardRequest, departureBoardQuery, Values.set,
      emptyValues, h₁, h₂, h₃, h₄]

/-- Witness for `fetchDepartures_request_shape`: the request issued on an
empty-cache miss has the fixed method, endpoint and query parameters. -/
theorem fetchDepartures_request_shape_witness :
    (departureBoardRequest "key" "900123456").method = "GET" ∧
    (departureBoardRequest "key" "900123456").query "accessId" = ["key"] ∧
    (departureBoardRequest "key" "900123456").query "duration" = ["60"] := by
  have h := fetchDepartures_request_shape
    (fun _ => .transportError "down") NewCache 0 "key" "900123456"
    (departureBoardRequest "key" "900123456")
    (by simp [fetchDepartures, NewCache, Cache.Get])
  exact ⟨h.1, h.2.2.1, h.2.2.2.2.2.1⟩

/-!
## CORS middleware (`corsMiddleware`)

```
origin := r.Header.Get("Origin")
if origin != "" && (slices.Contains(allowedOrigins, origin) ||
                    slices.Contains(allowedOrigins, "*")) {
    w.Header().Set("Access-Control-Allow-Origin", origin)
    w.Header().Set("Access-Control-Allow-Methods", "GET, POST, OPTIONS")
    w.Header().Set("Access-Control-Allow-Headers", "Content-Type, Authorization")
}
if r.Method == http.MethodOptions { w.WriteHeader(http.StatusNoContent); return }
next.ServeHTTP(w, r)
```

`r.Header.Get("Origin")` yields `""` when the header is absent, so the
request's Origin header is modelled as a `String` with `""` for absence.
The middleware itself never writes a body; the only body writer is the
wrapped handler, so `nextCalled = false` means an empty response body.
-/

/-- The part of an inbound HTTP request the middleware inspects: the method
and the `Origin` header (`""` when the header is absent). -/
structure CorsRequest where
  method : String
  origin : String

/-- The response-writer state after the middleware ran: the three CORS
headers it may set, the status code it wrote itself (if any), and whether
the wrapped handler was invoked. -/
structure CorsResponse where
  allowOrigin : Option String
  allowMethods : Option String
  allowHeaders : Option String
  status : Option Nat
  nextCalled : Bool
deriving DecidableEq, Repr

/-- Embeds Go `corsMiddleware(next http.Handler, allowedOrigins []string)`
applied to one request; `http.MethodOptions = "OPTIONS"`,
`http.StatusNoContent = 204`. -/
def corsMiddleware (allowedOrigins : List String) (r : CorsRequest) :
    CorsResponse :=
  let origin := r.origin
  let afterHeaders : CorsResponse :=
    if origin ≠ "" ∧ (allowedOrigins.contains origin ∨
        allowedOrigins.contains "*") then
      ⟨some origin, some "GET, POST, OPTIONS",
        some "Content-Type, Authorization", none, false⟩
    else
      ⟨none, none, none, none, false⟩
  if r.method = "OPTIONS" then { afterHeaders with status := some 204 }
  else { afterHeaders with nextCalled := true }

/-- Helper: closed form of `corsMiddleware`, with the Go boolean
`slices.Contains` checks normalised to list membership. -/
theorem corsMiddleware_eq (allowedOrigins : List String) (r : CorsRequest) :
    corsMiddleware allowedOrigins r =
      if r.origin ≠ "" ∧ (r.origin ∈ allowedOrigins ∨ "*" ∈ allowedOrigins)
      then
        (if r.method = "OPTIONS" then
          ⟨some r.origin, some "GET, POST, OPTIONS",
            some "Content-Type, Authorization", some 204, false⟩
        else
          ⟨some r.origin, some "GET, POST, OPTIONS",
            some "Content-Type, Authorization", none, true⟩)
      else
        (if r.method = "OPTIONS" then ⟨none, none, none, some 204, false⟩
        else ⟨none, none, none, none, true⟩) := by
  by_cases h0 : r.origin = "" <;> by_cases hmem : r.origin ∈ allowedOrigins <;>
    by_cases hstar : "*" ∈ allowedOrigins <;>
    by_cases hm : r.method = "OPTIONS" <;>
    simp [corsMiddleware, h0, hmem, hstar, hm]

/-- C7: CORS behavior. The middleware reflects the request's Origin header
back in `Access-Control-Allow-Origin` only if that Origin is in the
configured allow-list or the allow-list contains the wildcard `"*"`; and
every OPTIONS (preflight) request is answered with HTTP 204, without
invoking the wrapped handler — hence with an empty body. -/
theorem corsMiddleware_behavior (allowedOrigins : List String)
    (r : CorsRequest) :
    (∀ o, (corsMiddleware allowedOrigins r).allowOrigin = some o →
      o = r.origin ∧ (r.origin ∈ allowedOrigins ∨ "*" ∈ allowedOrigins)) ∧
    (r.method = "OPTIONS" →
      (corsMiddleware allowedOrigins r).status = some 204 ∧
      (corsMiddleware allowedOrigins r).nextCalled = false) := by
  rw [corsMiddleware_eq]
  constructor
  · intro o ho
    split_ifs at ho with h1 h2 h2 <;> simp at ho <;>
      exact ⟨ho.symm, h1.2⟩
  · intro hm
    split_ifs <;> simp_all

/-- Witness for `corsMiddleware_behavior`: an OPTIONS request with an
allowed origin is answered 204 without forwarding, and the reflected origin
is in the allow-list. -/
theorem corsMiddleware_behavior_witness :
    (corsMiddleware ["https://a.example"]
        ⟨"OPTIONS", "https://a.example"⟩).status = some 204 ∧
    (corsMiddleware ["https://a.example"]
        ⟨"OPTIONS", "https://a.example"⟩).nextCalled = false ∧
    ("https://a.example" = "https://a.example" ∧
      ("https://a.example" ∈ ["https://a.example"] ∨
        "*" ∈ ["https://a.example"])) := by
  have h := corsMiddleware_behavior ["https://a.example"]
    ⟨"OPTIONS", "https://a.example"⟩
  refine ⟨(h.2 rfl).1, (h.2 rfl).2, h.1 "https://a.example" ?_⟩
  decide

/-- C10: every OPTIONS request is answered with HTTP 204 and is never
forwarded to the wrapped handler, even when the Origin header is absent or
not allowed — and in that case the 204 response carries no
`Access-Control-Allow-Origin` header. -/
theorem corsMiddleware_options_never_forwarded (allowedOrigins : List String)
    (r : CorsRequest) (hm : r.method = "OPTIONS") :
    (corsMiddleware allowedOrigins r).nextCalled = false ∧
    (corsMiddleware allowedOrigins r).status = some 204 ∧
    ((r.origin = "" ∨ (r.origin ∉ allowedOrigins ∧ "*" ∉ allowedOrigins)) →
      (corsMiddleware allowedOrigins r).allowOrigin = none) := by
  rw [corsMiddleware_eq]
  split_ifs with h1
  · refine ⟨by simp [hm], by simp [hm], ?_⟩
    intro hbad
    rcases hbad with h0 | ⟨hmem, hstar⟩
    · exact absurd h0 h1.1
    · rcases h1.2 with h | h
      · exact absurd h hmem
      · exact absurd h hstar
  · exact ⟨by simp [hm], by simp [hm], fun _ => by simp [hm]⟩

/-- Witness for `corsMiddleware_options_never_forwarded`: an OPTIONS request
with no Origin header against an empty allow-list gets 204, is not
forwarded, and carries no `Access-Control-Allow-Origin` header. -/
theorem corsMiddleware_options_never_forwarded_witness :
    (corsMiddleware [] ⟨"OPTIONS", ""⟩).nextCalled = false ∧
    (corsMiddleware [] ⟨"OPTIONS", ""⟩).status = some 204 ∧
    (corsMiddleware [] ⟨"OPTIONS", ""⟩).allowOrigin = none := by
  have h := corsMiddleware_options_never_forwarded [] ⟨"OPTIONS", ""⟩ rfl
  exact ⟨h.1, h.2.1, h.2.2 (Or.inl rfl)⟩

/-!
## Concurrent cache safety (the `sync.RWMutex` protocol)

`Cache.Get` runs between `c.mu.RLock()` and `c.mu.RUnlock()`; `Cache.Set`
runs between `c.mu.Lock()` and `c.mu.Unlock()`. To give "no torn entry" a
meaning, the shared map assignment `c.entries[key] = cacheEntry{...}` is
modelled at a finer grain than the sequential `Cache.Set` above: a writer
first installs the new `data` field (leaving the entry marked dirty) and
only then the `expiresAt` field (marking the entry clean). A goroutine is a
`Phase` value; `CacheStep` is the interleaving small-step semantics with
the `RWMutex` guards (`RLock` blocks while a writer holds the lock; `Lock`
blocks while a writer holds it or any reader is registered), and
`CacheReach` is reachability from an initial state (empty map, free lock,
all goroutines about to call `Get` or `Set`). The theorem shows that every
completed `Get` observed a clean entry whose `(data, expiresAt)` pair is
exactly the pair written by a single completed `Set`.
-/

/-- An entry as laid out in shared memory; `clean = false` marks a write in
progress (only the `data` field has been installed so far). -/
structure RawEntry where
  data : GoAny
  expiresAt : Int
  clean : Bool
deriving DecidableEq, Repr

/-- The control point of one goroutine executing a single `Cache.Get` or
`Cache.Set` call. -/
inductive Phase where
  | getIdle (key : String)
  | getLocked (key : String)
  | getDone (key : String) (res : Option RawEntry)
  | setIdle (key : String) (data : GoAny) (exp : Int)
  | setLocked (key : String) (data : GoAny) (exp : Int)
  | setWrote (key : String) (data : GoAny) (exp : Int)
  | setDone (key : String) (data : GoAny) (exp : Int)
deriving DecidableEq, Repr

/-- A goroutine that has not touched the cache yet. -/
def Phase.isInitial : Phase → Bool
  | .getIdle _ => true
  | .setIdle _ _ _ => true
  | _ => false

/-- A goroutine currently holding the read lock. -/
def Phase.isReading : Phase → Bool
  | .getLocked _ => true
  | _ => false

/-- A goroutine currently holding the write lock. -/
def Phase.inWriteCS : Phase → Bool
  | .setLocked _ _ _ => true
  | .setWrote _ _ _ => true
  | _ => false

/-- Global state: the `RWMutex` (count of registered readers and the index
of the goroutine holding the write lock, if any), the shared entries map,
and one `Phase` per goroutine. -/
structure SysState where
  readers : Nat
  writerHolder : Option Nat
  mem : String → Option RawEntry
  phases : List Phase

/-- The `expiresAt` bits left in memory at `key` before a writer has
installed its own (arbitrary stale data; `0` for a fresh slot). -/
def staleExp (m : String → Option RawEntry) (key : String) : Int :=
  match m key with
  | some e => e.expiresAt
  | none => 0

/-- One interleaving step of the mutex-protected cache: goroutine `i`
advances its `Phase`. `rlock`/`read` are the two halves of `Cache.Get`
(`read` reads the map and drops the read lock); `wlock`, `write1`, `write2`
are `Cache.Set` (`write1` installs the `data` field, `write2` installs
`expiresAt` and drops the write lock). -/
inductive CacheStep : SysState → SysState → Prop where
  | rlock (s : SysState) (i : Nat) (key : String)
      (hph : s.phases[i]? = some (.getIdle key))
      (hw : s.writerHolder = none) :
      CacheStep s { s with readers := s.readers + 1,
                           phases := s.phases.set i (.getLocked key) }
  | read (s : SysState) (i : Nat) (key : String)
      (hph : s.phases[i]? = some (.getLocked key)) :
      CacheStep s { s with readers := s.readers - 1,
                           phases := s.phases.set i (.getDone key (s.mem key)) }
  | wlock (s : SysState) (i : Nat) (key : String) (data : GoAny) (exp : Int)
      (hph : s.phases[i]? = some (.setIdle key data exp))
      (hw : s.writerHolder = none) (hr : s.readers = 0) :
      CacheStep s { s with writerHolder := some i,
                           phases := s.phases.set i (.setLocked key data exp) }
  | write1 (s : SysState) (i : Nat) (key : String) (data : GoAny) (exp : Int)
      (hph : s.phases[i]? = some (.setLocked key data exp)) :
      CacheStep s { s with
        mem := fun k => if k = key then some ⟨data, staleExp s.mem key, false⟩
                        else s.mem k,
        phases := s.phases.set i (.setWrote key data exp) }
  | write2 (s : SysState) (i : Nat) (key : String) (data : GoAny) (exp : Int)
      (hph : s.phases[i]? = some (.setWrote key data exp)) :
      CacheStep s { s with
        writerHolder := none,
        mem := fun k => if k = key then some ⟨data, exp, true⟩ else s.mem k,
        phases := s.phases.set i (.setDone key data exp) }

/-- States reachable from an initial state: empty map, free lock, every
goroutine about to run one `Get` or `Set`. -/
inductive CacheReach : SysState → Prop where
  | init (ps : List Phase) (h : ∀ p ∈ ps, p.isInitial = true) :
      CacheReach ⟨0, none, fun _ => none, ps⟩
  | step (s t : SysState) (hs : CacheReach s) (hstep : CacheStep s t) :
      CacheReach t

/-- Helper: how `List.countP` changes under `List.set`. -/
theorem countP_set_get {α : Type} (p : α → Bool) :
    ∀ (l : List α) (i : Nat) (x y : α), l[i]? = some y →
      (l.set i x).countP p + (if p y then 1 else 0) =
        l.countP p + (if p x then 1 else 0) := by
  intro l
  induction l with
  | nil => intro i x y h; simp at h
  | cons a t ih =>
    intro i x y h
    cases i with
    | zero =>
      simp only [List.getElem?_cons_zero, Option.some.injEq] at h
      subst h
      simp only [List.set_cons_zero, List.countP_cons]
      omega
    | succ n =>
      simp only [List.getElem?_cons_succ] at h
      simp only [List.set_cons_succ, List.countP_cons]
      have := ih n x y h
      omega

/-- Helper: reading an updated list either hits the updated slot or an
unchanged one. -/
theorem getElem_set_cases {l : List Phase} {i j : Nat} {x q : Phase}
    (h : (l.set i x)[j]? = some q) :
    (j = i ∧ q = x ∧ i < l.length) ∨ (j ≠ i ∧ l[j]? = some q) := by
  by_cases hij : j = i
  · subst hij
    by_cases hlt : j < l.length
    · rw [List.getElem?_set_self hlt] at h
      exact Or.inl ⟨rfl, (Option.some.inj h).symm, hlt⟩
    · rw [List.getElem?_set] at h
      simp [hlt] at h
  · exact Or.inr ⟨hij, by rw [← List.getElem?_set_ne (fun hh => hij hh.symm)]; exact h⟩

/-- Helper: an entry of a list distinct from the overwritten one survives a
`List.set` at a slot holding a different value. -/
theorem getElem_set_preserve {l : List Phase} {i j : Nat} {x q old : Phase}
    (hj : l[j]? = some q) (hi : l[i]? = some old) (hne : q ≠ old) :
    (l.set i x)[j]? = some q := by
  have hij : i ≠ j := by
    intro hh
    subst hh
    rw [hj] at hi
    exact hne (Option.some.inj hi)
  rw [List.getElem?_set_ne hij]
  exact hj

/-- Helper: a slot holding a `p`-positive value makes `countP p` positive. -/
theorem countP_pos_of_getElem {l : List Phase} {i : Nat} {q : Phase}
    {p : Phase → Bool} (h : l[i]? = some q) (hq : p q = true) :
    0 < l.countP p := by
  refine List.countP_pos_iff.mpr ⟨q, ?_, hq⟩
  have := List.get?_eq_getElem? l i
  exact List.get?_mem (by rw [this]; exact h)

/-- Helper: membership from an indexed lookup. -/
theorem mem_of_getElem {α : Type} {l : List α} {i : Nat} {q : α}
    (h : l[i]? = some q) : q ∈ l :=
  List.get?_mem (by rw [List.get?_eq_getElem?]; exact h)

/-- Helper: an indexed lookup that succeeds is in bounds. -/
theorem lt_of_getElem {α : Type} {l : List α} {i : Nat} {q : α}
    (h : l[i]? = some q) : i < l.length := by
  by_contra hle
  push_neg at hle
  rw [List.getElem?_eq_none hle] at h
  cases h

/-- The inductive invariant of the `RWMutex` protocol: the reader count
matches the goroutines holding the read lock; any goroutine inside the
write critical section is the registered write-lock holder; a held write
lock excludes all readers; a dirty entry belongs to the writer that is
mid-write; a clean entry carries exactly the pair written by some completed
`Set`; and every completed `Get` observed a clean, atomically-written
entry. -/
structure SysInv (s : SysState) : Prop where
  readers_eq : s.readers = s.phases.countP Phase.isReading
  writer_own : ∀ (i : Nat) (p : Phase), s.phases[i]? = some p →
      p.inWriteCS = true → s.writerHolder = some i
  writer_excl : s.writerHolder.isSome = true → s.readers = 0
  dirty_src : ∀ (k : String) (e : RawEntry), s.mem k = some e →
      e.clean = false →
      ∃ (j : Nat) (d : GoAny) (x : Int),
        s.phases[j]? = some (.setWrote k d x)
  clean_src : ∀ (k : String) (e : RawEntry), s.mem k = some e →
      e.clean = true →
      ∃ (j : Nat), s.phases[j]? = some (.setDone k e.data e.expiresAt)
  reads_clean : ∀ (i : Nat) (k : String) (e : RawEntry),
      s.phases[i]? = some (.getDone k (some e)) →
      e.clean = true ∧
      ∃ (j : Nat), s.phases[j]? = some (.setDone k e.data e.expiresAt)

/-- The invariant holds in every initial state. -/
theorem sysInv_init (ps : List Phase) (h : ∀ p ∈ ps, p.isInitial = true) :
    SysInv ⟨0, none, fun _ => none, ps⟩ := by
  refine ⟨?_, ?_, ?_, ?_, ?_, ?_⟩
  · symm
    rw [List.countP_eq_zero]
    intro a ha
    have hi := h a ha
    cases a <;> simp [Phase.isInitial] at hi <;> simp [Phase.isReading]
  · intro i p hp hcs
    have hi := h p (mem_of_getElem hp)
    cases p <;> simp [Phase.isInitial] at hi <;>
      simp [Phase.inWriteCS] at hcs
  · intro h'
    simp at h'
  · intro k e hk
    cases hk
  · intro k e hk
    cases hk
  · intro i k e hp
    have hi := h _ (mem_of_getElem hp)
    simp [Phase.isInitial] at hi

/-- The invariant is preserved by every step of the protocol. -/
theorem sysInv_step {s t : SysState} (inv : SysInv s) (st : CacheStep s t) :
    SysInv t := by
  cases st with
  | rlock i key hph hw =>
    have hcount := countP_set_get Phase.isReading s.phases i (.getLocked key)
      _ hph
    simp [Phase.isReading] at hcount
    refine ⟨?_, ?_, ?_, ?_, ?_, ?_⟩
    · show s.readers + 1 =
        (s.phases.set i (.getLocked key)).countP Phase.isReading
      have := inv.readers_eq
      omega
    · intro j p hj hcs
      rcases getElem_set_cases hj with ⟨rfl, rfl, _⟩ | ⟨hne, hj'⟩
      · simp [Phase.inWriteCS] at hcs
      · exact inv.writer_own j p hj' hcs
    · intro hsome
      rw [hw] at hsome
      cases hsome
    · intro k e hk hcl
      obtain ⟨j, d, x, hj⟩ := inv.dirty_src k e hk hcl
      exact ⟨j, d, x, getElem_set_preserve hj hph (fun hh => Phase.noConfusion hh)⟩
    · intro k e hk hcl
      obtain ⟨j, hj⟩ := inv.clean_src k e hk hcl
      exact ⟨j, getElem_set_preserve hj hph (fun hh => Phase.noConfusion hh)⟩
    · intro i' k e hi'
      rcases getElem_set_cases hi' with ⟨rfl, heq, _⟩ | ⟨hne, hi''⟩
      · exact Phase.noConfusion heq
      · obtain ⟨hcl, j, hj⟩ := inv.reads_clean i' k e hi''
        exact ⟨hcl, j,
          getElem_set_preserve hj hph (fun hh => Phase.noConfusion hh)⟩
  | read i key hph =>
    have hcount := countP_set_get Phase.isReading s.phases i
      (.getDone key (s.mem key)) _ hph
    simp [Phase.isReading] at hcount
    have hpos : 0 < s.phases.countP Phase.isReading :=
      countP_pos_of_getElem hph rfl
    refine ⟨?_, ?_, ?_, ?_, ?_, ?_⟩
    · show s.readers - 1 =
        (s.phases.set i (.getDone key (s.mem key))).countP Phase.isReading
      have := inv.readers_eq
      omega
    · intro j p hj hcs
      rcases getElem_set_cases hj with ⟨rfl, rfl, _⟩ | ⟨hne, hj'⟩
      · simp [Phase.inWriteCS] at hcs
      · exact inv.writer_own j p hj' hcs
    · intro hsome
      have h0 := inv.writer_excl hsome
      show s.readers - 1 = 0
      omega
    · intro k e hk hcl
      obtain ⟨j, d, x, hj⟩ := inv.dirty_src k e hk hcl
      exact ⟨j, d, x, getElem_set_preserve hj hph (fun hh => Phase.noConfusion hh)⟩
    · intro k e hk hcl
      obtain ⟨j, hj⟩ := inv.clean_src k e hk hcl
      exact ⟨j, getElem_set_preserve hj hph (fun hh => Phase.noConfusion hh)⟩
    · intro i' k e hi'
      rcases getElem_set_cases hi' with ⟨rfl, heq, _⟩ | ⟨hne, hi''⟩
      · injection heq with hk hres
        subst hk
        have hmem : s.mem k = some e := hres.symm
        have hclean : e.clean = true := by
          cases hc : e.clean with
          | true => rfl
          | false =>
            obtain ⟨j, d, x, hj⟩ := inv.dirty_src k e hmem hc
            have hown := inv.writer_own j _ hj rfl
            have h0 := inv.writer_excl (by rw [hown]; rfl)
            have := inv.readers_eq
            omega
        obtain ⟨j, hj⟩ := inv.clean_src k e hmem hclean
        exact ⟨hclean, j,
          getElem_set_preserve hj hph (fun hh => Phase.noConfusion hh)⟩
      · obtain ⟨hcl, j, hj⟩ := inv.reads_clean i' k e hi''
        exact ⟨hcl, j,
          getElem_set_preserve hj hph (fun hh => Phase.noConfusion hh)⟩
  | wlock i key data exp hph hw hr =>
    have hcount := countP_set_get Phase.isReading s.phases i
      (.setLocked key data exp) _ hph
    simp [Phase.isReading] at hcount
    refine ⟨?_, ?_, ?_, ?_, ?_, ?_⟩
    · show s.readers =
        (s.phases.set i (.setLocked key data exp)).countP Phase.isReading
      have := inv.readers_eq
      omega
    · intro j p hj hcs
      rcases getElem_set_cases hj with ⟨rfl, rfl, _⟩ | ⟨hne, hj'⟩
      · rfl
      · have h1 := inv.writer_own j p hj' hcs
        rw [hw] at h1
        exact Option.noConfusion h1
    · intro _
      exact hr
    · intro k e hk hcl
      obtain ⟨j, d, x, hj⟩ := inv.dirty_src k e hk hcl
      exact ⟨j, d, x, getElem_set_preserve hj hph (fun hh => Phase.noConfusion hh)⟩
    · intro k e hk hcl
      obtain ⟨j, hj⟩ := inv.clean_src k e hk hcl
      exact ⟨j, getElem_set_preserve hj hph (fun hh => Phase.noConfusion hh)⟩
    · intro i' k e hi'
      rcases getElem_set_cases hi' with ⟨rfl, heq, _⟩ | ⟨hne, hi''⟩
      · exact Phase.noConfusion heq
      · obtain ⟨hcl, j, hj⟩ := inv.reads_clean i' k e hi''
        exact ⟨hcl, j,
          getElem_set_preserve hj hph (fun hh => Phase.noConfusion hh)⟩
  | write1 i key data exp hph =>
    have hcount := countP_set_get Phase.isReading s.phases i
      (.setWrote key data exp) _ hph
    simp [Phase.isReading] at hcount
    have hlt : i < s.phases.length := lt_of_getElem hph
    have hown := inv.writer_own i _ hph rfl
    refine ⟨?_, ?_, ?_, ?_, ?_, ?_⟩
    · show s.readers =
        (s.phases.set i (.setWrote key data exp)).countP Phase.isReading
      have := inv.readers_eq
      omega
    · intro j p hj hcs
      rcases getElem_set_cases hj with ⟨rfl, rfl, _⟩ | ⟨hne, hj'⟩
      · exact hown
      · exact inv.writer_own j p hj' hcs
    · intro hsome
      exact inv.writer_excl hsome
    · intro k e hk hcl
      dsimp only at hk
      by_cases hkey : k = key
      · refine ⟨i, data, exp, ?_⟩
        show (s.phases.set i (Phase.setWrote key data exp))[i]? =
          some (Phase.setWrote k data exp)
        rw [hkey]
        exact List.getElem?_set_self hlt
      · rw [if_neg hkey] at hk
        obtain ⟨j, d, x, hj⟩ := inv.dirty_src k e hk hcl
        exact ⟨j, d, x,
          getElem_set_preserve hj hph (fun hh => Phase.noConfusion hh)⟩
    · intro k e hk hcl
      dsimp only at hk
      by_cases hkey : k = key
      · rw [if_pos hkey] at hk
        obtain rfl := Option.some.inj hk
        cases hcl
      · rw [if_neg hkey] at hk
        obtain ⟨j, hj⟩ := inv.clean_src k e hk hcl
        exact ⟨j, getElem_set_preserve hj hph (fun hh => Phase.noConfusion hh)⟩
    · intro i' k e hi'
      rcases getElem_set_cases hi' with ⟨rfl, heq, _⟩ | ⟨hne, hi''⟩
      · exact Phase.noConfusion heq
      · obtain ⟨hcl, j, hj⟩ := inv.reads_clean i' k e hi''
        exact ⟨hcl, j,
          getElem_set_preserve hj hph (fun hh => Phase.noConfusion hh)⟩
  | write2 i key data exp hph =>
    have hcount := countP_set_get Phase.isReading s.phases i
      (.setDone key data exp) _ hph
    simp [Phase.isReading] at hcount
    have hlt : i < s.phases.length := lt_of_getElem hph
    have hown := inv.writer_own i _ hph rfl
    refine ⟨?_, ?_, ?_, ?_, ?_, ?_⟩
    · show s.readers =
        (s.phases.set i (.setDone key data exp)).countP Phase.isReading
      have := inv.readers_eq
      omega
    · intro j p hj hcs
      rcases getElem_set_cases hj with ⟨rfl, rfl, _⟩ | ⟨hne, hj'⟩
      · simp [Phase.inWriteCS] at hcs
      · have h1 := inv.writer_own j p hj' hcs
        rw [hown] at h1
        exact absurd (Option.some.inj h1).symm hne
    · intro hsome
      cases hsome
    · intro k e hk hcl
      dsimp only at hk
      by_cases hkey : k = key
      · rw [if_pos hkey] at hk
        obtain rfl := Option.some.inj hk
        cases hcl
      · rw [if_neg hkey] at hk
        obtain ⟨j, d, x, hj⟩ := inv.dirty_src k e hk hcl
        have h1 := inv.writer_own j _ hj rfl
        rw [hown] at h1
        obtain rfl := (Option.some.inj h1)
        rw [hph] at hj
        injection hj with h2
        injection h2 with hk' hd' hx'
        exact absurd hk'.symm hkey
    · intro k e hk hcl
      dsimp only at hk
      by_cases hkey : k = key
      · rw [if_pos hkey] at hk
        obtain rfl := Option.some.inj hk
        refine ⟨i, ?_⟩
        show (s.phases.set i (Phase.setDone key data exp))[i]? =
          some (Phase.setDone k (RawEntry.mk data exp true).data
            (RawEntry.mk data exp true).expiresAt)
        rw [hkey]
        exact List.getElem?_set_self hlt
      · rw [if_neg hkey] at hk
        obtain ⟨j, hj⟩ := inv.clean_src k e hk hcl
        exact ⟨j, getElem_set_preserve hj hph (fun hh => Phase.noConfusion hh)⟩
    · intro i' k e hi'
      rcases getElem_set_cases hi' with ⟨rfl, heq, _⟩ | ⟨hne, hi''⟩
      · exact Phase.noConfusion heq
      · obtain ⟨hcl, j, hj⟩ := inv.reads_clean i' k e hi''
        exact ⟨hcl, j,
          getElem_set_preserve hj hph (fun hh => Phase.noConfusion hh)⟩

/-- The invariant holds in every reachable state. -/
theorem sysInv_reach {s : SysState} (h : CacheReach s) : SysInv s := by
  induction h with
  | init ps hps => exact sysInv_init ps hps
  | step s t hs hstep ih => exact sysInv_step ih hstep

/-- C6: concurrent cache safety. Under any interleaving of any number of
concurrent `Get` and `Set` goroutines on the same or different keys, the
entries map holds at most one entry per key by construction, and no
completed `Get` observes a torn entry: every `(data, expiresAt)` pair a
read returns is clean and is exactly the pair installed by a single
completed `Set` on that key. -/
theorem cache_concurrent_no_torn_read (s : SysState) (hreach : CacheReach s)
    (i : Nat) (key : String) (e : RawEntry)
    (hread : s.phases[i]? = some (.getDone key (some e))) :
    e.clean = true ∧
    ∃ (j : Nat), s.phases[j]? = some (.setDone key e.data e.expiresAt) :=
  (sysInv_reach hreach).reads_clean i key e hread

/-- Witness for `cache_concurrent_no_torn_read`: the run in which a `Set`
goroutine writes `("k", json 2, 5)` completely and then a `Get` goroutine
reads it; the read observes the clean, atomically written pair. -/
theorem cache_concurrent_no_torn_read_witness :
    (RawEntry.mk (GoAny.json 2) 5 true).clean = true ∧
    ∃ (j : Nat),
      ([Phase.setDone "k" (GoAny.json 2) 5,
        Phase.getDone "k" (some (RawEntry.mk (GoAny.json 2) 5 true))] :
          List Phase)[j]? =
        some (Phase.setDone "k" (RawEntry.mk (GoAny.json 2) 5 true).data
          (RawEntry.mk (GoAny.json 2) 5 true).expiresAt) := by
  have h0 : CacheReach ⟨0, none, fun _ => none,
      [Phase.setIdle "k" (GoAny.json 2) 5, Phase.getIdle "k"]⟩ :=
    CacheReach.init _ (by decide)
  have h1 := CacheReach.step _ _ h0
    (CacheStep.wlock _ 0 "k" (GoAny.json 2) 5 rfl rfl rfl)
  have h2 := CacheReach.step _ _ h1
    (CacheStep.write1 _ 0 "k" (GoAny.json 2) 5 rfl)
  have h3 := CacheReach.step _ _ h2
    (CacheStep.write2 _ 0 "k" (GoAny.json 2) 5 rfl)
  have h4 := CacheReach.step _ _ h3 (CacheStep.rlock _ 1 "k" rfl rfl)
  have h5 := CacheReach.step _ _ h4 (CacheStep.read _ 1 "k" rfl)
  have happ := cache_concurrent_no_torn_read _ h5 1 "k"
    (RawEntry.mk (GoAny.json 2) 5 true) (by decide)
  exact happ
